import Mathlib

/-!
# Verification of the timer-future cooperative executor

Shallow embedding of `src/2.2 - timer-future/src/main.rs`: a single-consumer
task executor built on a bounded `std::sync::mpsc::sync_channel` of
`Arc<Task>` references.  Tasks wrap a `Mutex<Option<BoxFuture<'static, ()>>>`
slot plus a clone of the channel's `SyncSender`; waking a task re-enqueues a
reference to it; the executor pops references, takes the future out of the
slot, polls it once, and puts it back only when the poll is pending.
-/

namespace TimerFutureExec

/-- Task identifiers: each `Arc<Task>` reference on the queue is a reference
to one task, identified by the index at which the task was allocated. -/
abbrev TaskId := Nat

/-- Rust type `Poll<T>` from `std::task`: a poll either completes with a result of the
future's output type or reports pending. -/
inductive Poll (α : Type) where
  | ready (a : α)
  | pending
deriving DecidableEq, Repr

/-- A boxed top-level future, `BoxFuture<'static, ()>`.  The executor only
observes each poll's outcome, so the future is embedded as its poll behaviour
`behav` — the outcome of the n-th resumption — together with `st`, the number
of resumptions performed so far.  `Spawner::spawn` requires
`Future<Output = ()>`, so the output type is fixed to `Unit`. -/
structure Fut where
  behav : Nat → Poll Unit
  st : Nat

/-- Polling advances the future to its next suspension point: the embedded
resumption counter increases by one. -/
def Fut.advance (f : Fut) : Fut := { f with st := f.st + 1 }

/-- The state of the bounded mpsc channel created by
`sync_channel(MAX_QUEUED_TASKS)`: the FIFO buffer of task references, its
fixed capacity, the number of live `SyncSender` clones (the `Spawner` handles
plus the `task_sender` held inside every live `Task`), and whether the
`Receiver` (owned by the `Executor`) is still alive. -/
structure Chan where
  buf : List TaskId
  cap : Nat
  senders : Nat
  receiverAlive : Bool
deriving DecidableEq, Repr

/-- Outcome of `SyncSender::send`. -/
inductive SendRes where
  /-- The message was buffered; the channel advanced to this state. -/
  | ok (c : Chan)
  /-- The buffer is full: `send` blocks until space becomes available. -/
  | blocked
  /-- The receiver has been dropped: `send` returns `Err(SendError)`, which
  the source turns into a panic via `.expect("too many tasks queued")`. -/
  | err
deriving DecidableEq, Repr

/-- Semantics of `SyncSender::send` on a `sync_channel`, per its documented semantics:
"This function will block until space in the internal buffer becomes
available", and "An error will be returned in the event that the receiving
end of a channel hangs up" — it errors only on a dropped receiver, never on
a full buffer. -/
def send (t : TaskId) (c : Chan) : SendRes :=
  if ¬ c.receiverAlive then .err
  else if c.cap ≤ c.buf.length then .blocked
  else .ok { c with buf := c.buf ++ [t] }

/-- Outcome of `Receiver::recv`. -/
inductive RecvRes where
  /-- A buffered reference was delivered, leaving the channel in this state. -/
  | ok (t : TaskId) (c : Chan)
  /-- Buffer empty and every `SyncSender` dropped: `recv` returns
  `Err(RecvError)` — the channel is closed and empty. -/
  | disconnected
  /-- Buffer empty but a sender is still alive: `recv` blocks. -/
  | blocked
deriving DecidableEq, Repr

/-- Semantics of `Receiver::recv`: delivers buffered messages FIFO; once the buffer is
empty it reports disconnection only when every sender has been dropped,
otherwise it blocks waiting for the next message. -/
def recv (c : Chan) : RecvRes :=
  match c.buf with
  | t :: rest => .ok t { c with buf := rest }
  | [] => if c.senders = 0 then .disconnected else .blocked

/-- Embedding of `impl ArcWake for Task`, method `wake_by_ref`: clone the `Arc<Task>` reference and
send it through the task's own `task_sender` clone of the queue producer.
The clone of the `Arc` and of the `SyncSender` add no observable channel
state, so the effect is exactly one `send` of the same task's id. -/
def wake_by_ref (t : TaskId) (c : Chan) : SendRes := send t c

/-- Whole-system state: the channel, plus each allocated task's
`future: Mutex<Option<BoxFuture>>` slot, indexed by `TaskId` (a task's id is
its index in `tasks`; the slot is `none` after the future completed). -/
structure ExecState where
  chan : Chan
  tasks : List (Option Fut)

/-- The contents of task `t`'s computation slot (out-of-range ids, which
never arise, read as an empty slot). -/
def slotOf (s : ExecState) (t : TaskId) : Option Fut :=
  (s.tasks.get? t).getD none

/-- Outcome of one iteration of `Executor::run`'s
`while let Ok(task) = self.ready_queue.recv()` loop. -/
inductive StepRes where
  /-- `recv` returned `Err`: the `while let` fails and `run` returns. -/
  | drained
  /-- `recv` blocks: the consumer waits for the next reference. -/
  | blocked
  /-- One iteration ran; `polled` records which task's future was polled
  (`none` when the dequeued reference found an empty slot). -/
  | stepped (s2 : ExecState) (polled : Option TaskId)

/-- One iteration of `Executor::run`: `recv` a task reference; lock the
task's slot and `take()` the future; if the slot was empty the iteration is
a no-op; otherwise poll once — `is_pending()` puts the (advanced) future
back into the slot, while a ready poll leaves the slot empty, dropping the
future. -/
def runStep (s : ExecState) : StepRes :=
  match recv s.chan with
  | .disconnected => .drained
  | .blocked => .blocked
  | .ok t c2 =>
    match slotOf s t with
    | none => .stepped { s with chan := c2 } none
    | some f =>
      match f.behav f.st with
      | .pending => .stepped { chan := c2, tasks := s.tasks.set t (some f.advance) } (some t)
      | .ready _ => .stepped { chan := c2, tasks := s.tasks.set t none } (some t)

/-- Embedding of `Spawner::spawn`: box the future, allocate a fresh `Task` whose slot
holds it (never resumed yet) and whose `task_sender` is a clone of the
spawner's, then `send` a reference to it.  A blocked or failed send leaves
no observable completed state change. -/
def spawn (b : Nat → Poll Unit) (s : ExecState) : ExecState :=
  match send s.tasks.length s.chan with
  | .ok c2 => { chan := c2, tasks := s.tasks ++ [some { behav := b, st := 0 }] }
  | _ => s

/-- Events that other threads (or the consumer itself, between iterations)
can interleave with the executor: one run-loop iteration, a `wake` call on a
task reference, a `Spawner::spawn`, or dropping a `Spawner` clone. -/
inductive Ev where
  | exec
  | wake (t : TaskId)
  | spawnEv (b : Nat → Poll Unit)
  | dropSpawner

/-- Effect of one event on the system state, together with the task polled
by the event, if any.  `wake` goes through `wake_by_ref`; a blocked send
(waiting for buffer space) or a panicking send reaches no new completed
state. -/
def stepEv (e : Ev) (s : ExecState) : ExecState × Option TaskId :=
  match e with
  | .exec =>
    match runStep s with
    | .stepped s2 p => (s2, p)
    | _ => (s, none)
  | .wake t =>
    match wake_by_ref t s.chan with
    | .ok c2 => ({ s with chan := c2 }, none)
    | _ => (s, none)
  | .spawnEv b => (spawn b s, none)
  | .dropSpawner => ({ s with chan := { s.chan with senders := s.chan.senders - 1 } }, none)

/-- Run a schedule of events, collecting the trace of polled task ids. -/
def runEvs (evs : List Ev) (s : ExecState) : ExecState × List TaskId :=
  match evs with
  | [] => (s, [])
  | e :: rest =>
    ((runEvs rest (stepEv e s).1).1,
     (stepEv e s).2.toList ++ (runEvs rest (stepEv e s).1).2)

/-- A sequence of producer-tagged sends, `ps` listing `(producer, task)`
pairs in global submission order: each send goes through the shared
`SyncSender` clone of that producer (all clones feed the one FIFO buffer of
the `sync_channel`).  A send that blocks or fails leaves the channel as it
was. -/
def sendAll (ps : List (Nat × TaskId)) (c : Chan) : Chan :=
  ps.foldl
    (fun c1 p =>
      match send p.2 c1 with
      | .ok c2 => c2
      | _ => c1)
    c

/-- The stream the single consumer obtains by calling `recv` repeatedly
(`n` bounds the number of calls): the channel hands back its buffer in FIFO
order. -/
def drain (n : Nat) (c : Chan) : List TaskId :=
  match n with
  | 0 => []
  | Nat.succ m =>
    match recv c with
    | .ok t c2 => t :: drain m c2
    | _ => []

/-- A channel already holding its full capacity of task references, with
the executor's receiver still alive. -/
def fullChan : Chan := { buf := [0], cap := 1, senders := 1, receiverAlive := true }

/-- A channel whose consuming `Executor` (the `Receiver`) has been dropped. -/
def noRecvChan : Chan := { buf := [], cap := 1, senders := 1, receiverAlive := false }

/-- A whole-system state whose channel is already at capacity. -/
def fullState : ExecState := { chan := fullChan, tasks := [none] }

/-!
## The per-task slot protocol (`Mutex<Option<BoxFuture>>`)

For the mutual-exclusion claim the slot of one task is modelled at the level
of individual memory operations: acquiring and releasing the `Mutex`, the
`Option::take` that pulls the future out (`future_slot.take()`), and putting
it back (`*future_slot = Some(future)`) or dropping it.  Threads are
arbitrary (the single executor thread is one of them; the model allows any
number of contenders, so mutual exclusion is established by the slot
discipline itself, not by assuming a lone consumer).
-/

/-- The state of one task's `future` field: who currently holds the `Mutex`
guard, whether the `Option` slot currently contains the future, and the
threads currently holding the future out of the slot. -/
structure SlotSt where
  lockHolder : Option Nat
  content : Bool
  holders : List Nat
deriving DecidableEq, Repr

/-- The operations on the slot performed by `Executor::run` (and, vacuously,
by any other thread): lock the mutex, `take()` the future, put it back,
drop it on completion, release the mutex. -/
inductive SAct where
  | acquire (th : Nat)
  | take (th : Nat)
  | put (th : Nat)
  | dropFut (th : Nat)
  | release (th : Nat)
deriving DecidableEq, Repr

/-- Atomic effect of one slot operation by thread `th`; `none` when the
operation is not enabled (the mutex is contended, or the slot is empty —
`take()` on an empty `Option` yields `None` and the thread holds nothing). -/
def sstep (s : SlotSt) (a : SAct) : Option SlotSt :=
  match a with
  | .acquire th =>
    match s.lockHolder with
    | none => some { s with lockHolder := some th }
    | some _ => none
  | .take th =>
    if s.lockHolder = some th ∧ s.content then
      some { s with content := false, holders := th :: s.holders }
    else none
  | .put th =>
    if s.lockHolder = some th ∧ th ∈ s.holders then
      some { s with content := true, holders := s.holders.erase th }
    else none
  | .dropFut th =>
    if s.lockHolder = some th ∧ th ∈ s.holders then
      some { s with holders := s.holders.erase th }
    else none
  | .release th =>
    if s.lockHolder = some th then some { s with lockHolder := none } else none

/-- A freshly spawned task's slot: mutex free, future present, no holder. -/
def slotInit : SlotSt := { lockHolder := none, content := true, holders := [] }

/-- States of the slot reachable by any interleaving of slot operations. -/
inductive SlotReach : SlotSt → SlotSt → Prop where
  | refl (s : SlotSt) : SlotReach s s
  | step {s s1 s2 : SlotSt} {a : SAct} :
      SlotReach s s1 → sstep s1 a = some s2 → SlotReach s s2

/-- The slot invariant: the future exists in at most one place — either in
the slot or held by exactly one thread. -/
def slotInv (s : SlotSt) : Prop :=
  s.holders.length + (if s.content then 1 else 0) ≤ 1

/-!
## Theorems
-/

/-- A task with a non-empty slot is an allocated task. -/
lemma slotOf_lt_length {s : ExecState} {t : TaskId} {f : Fut}
    (h : slotOf s t = some f) : t < s.tasks.length := by
  unfold slotOf at h
  rcases hg : s.tasks.get? t with _ | o
  · rw [hg] at h
    simp at h
  · rcases List.get?_eq_some.mp hg with ⟨e, -⟩
    exact e

/-- Reading a slot other than the one being written. -/
lemma slot_set_ne (l : List (Option Fut)) (u t : TaskId) (x : Option Fut)
    (h : u ≠ t) : ((l.set u x).get? t).getD none = (l.get? t).getD none := by
  rw [List.get?_set_ne x l h]

/-- Allocating a fresh task does not touch existing slots. -/
lemma slot_append (l : List (Option Fut)) (t : TaskId) (x : Option Fut)
    (h : t < l.length) : ((l ++ [x]).get? t).getD none = (l.get? t).getD none := by
  rw [List.get?_append h]

/-- Reading `recv` reports disconnection exactly when the channel is closed (no live
sender) and empty. -/
lemma recv_disconnected_iff (c : Chan) :
    recv c = RecvRes.disconnected ↔ (c.buf = [] ∧ c.senders = 0) := by
  unfold recv
  rcases hbuf : c.buf with _ | ⟨t, rest⟩
  · by_cases hs : c.senders = 0 <;> simp [hs]
  · simp

/-- C1, the claim as stated, is false on the code: a wake (and likewise a
spawn's send) against a queue already at capacity blocks waiting for space —
`SyncSender::send` on a full `sync_channel` buffer waits; it does not return
the error that `.expect("too many tasks queued")` would turn into a fatal
failure. -/
theorem queue_full_blocks_cex :
    wake_by_ref 0 fullChan = SendRes.blocked
    ∧ send 1 fullChan = SendRes.blocked
    ∧ SendRes.blocked ≠ SendRes.err := by
  refine ⟨by decide, by decide, by decide⟩

/-- C1 amended: a spawn or wake send against a queue at capacity blocks until
space becomes available; the send fails fatally (the source panics via
`expect`) exactly when the consuming receiver has been dropped, and that
failure is immediate — never retried and never silently dropped. -/
theorem send_at_capacity_blocks (t : TaskId) (c : Chan) :
    (c.receiverAlive = true → c.cap ≤ c.buf.length → send t c = SendRes.blocked)
    ∧ (c.receiverAlive = false → send t c = SendRes.err) := by
  constructor
  · intro halive hfull
    unfold send
    rw [if_neg (by simp [halive]), if_pos hfull]
  · intro hdead
    unfold send
    rw [if_pos (by simp [hdead])]

/-- Witness for `send_at_capacity_blocks` at concrete channels. -/
theorem send_at_capacity_blocks_witness :
    send 1 fullChan = SendRes.blocked ∧ send 0 noRecvChan = SendRes.err :=
  ⟨(send_at_capacity_blocks 1 fullChan).1 rfl (by decide),
   (send_at_capacity_blocks 0 noRecvChan).2 rfl⟩

/-- C2: one iteration of `Executor::run`'s `while let Ok(task) = recv()`
loop returns (reaches `Drained`) exactly when `recv` reports closed-and-empty
— the buffer holds no task reference and every `SyncSender` (every `Spawner`
handle and every task-held sender) has been dropped — and under no other
condition. -/
theorem run_returns_iff_closed_and_empty (s : ExecState) :
    runStep s = StepRes.drained ↔ (s.chan.buf = [] ∧ s.chan.senders = 0) := by
  constructor
  · intro h
    unfold runStep at h
    split at h
    · rename_i heq
      exact (recv_disconnected_iff s.chan).mp heq
    · exact absurd h (by simp)
    · split at h
      · exact StepRes.noConfusion h
      · split at h <;> exact StepRes.noConfusion h
  · rintro ⟨hbuf, hs⟩
    unfold runStep recv
    rw [hbuf]
    simp [hs]

/-- Witness for `run_returns_iff_closed_and_empty`: with the queue empty and
every sender dropped, the loop returns. -/
theorem run_returns_witness :
    runStep { chan := { buf := [], cap := 1, senders := 0, receiverAlive := true },
              tasks := [] } = StepRes.drained :=
  (run_returns_iff_closed_and_empty _).mpr ⟨rfl, rfl⟩

/-- C5: dequeuing a reference to a task whose slot is already empty is a
no-op iteration — `future_slot.take()` yields `None`, so no poll happens and
the only state change is that the reference has been consumed from the
queue. -/
theorem empty_slot_dequeue_noop (s : ExecState) (t : TaskId) (rest : List TaskId)
    (hbuf : s.chan.buf = t :: rest) (hslot : slotOf s t = none) :
    runStep s = StepRes.stepped { s with chan := { s.chan with buf := rest } } none := by
  unfold runStep recv
  rw [hbuf]
  simp only []
  rw [hslot]

/-- Witness for `empty_slot_dequeue_noop` at a concrete state. -/
theorem empty_slot_dequeue_noop_witness :
    runStep { chan := { buf := [0], cap := 2, senders := 1, receiverAlive := true },
              tasks := [none] }
      = StepRes.stepped
          { chan := { buf := [], cap := 2, senders := 1, receiverAlive := true },
            tasks := [none] } none :=
  empty_slot_dequeue_noop _ 0 [] rfl rfl

/-- C6: `wake_by_ref` clones the task's stored producer handle and pushes
exactly one new reference to that same task onto the ready queue; nothing
else about the channel changes. -/
theorem wake_pushes_one_ref (t : TaskId) (c : Chan)
    (halive : c.receiverAlive = true) (hroom : c.buf.length < c.cap) :
    wake_by_ref t c = SendRes.ok { c with buf := c.buf ++ [t] } := by
  unfold wake_by_ref send
  rw [if_neg (by simp [halive]), if_neg (Nat.not_le.mpr hroom)]

/-- Witness for `wake_pushes_one_ref` at a concrete channel. -/
theorem wake_pushes_one_ref_witness :
    wake_by_ref 0 { buf := [], cap := 1, senders := 1, receiverAlive := true }
      = SendRes.ok { buf := [0], cap := 1, senders := 1, receiverAlive := true } :=
  wake_pushes_one_ref 0 _ rfl (by decide)

/-- C9: a wake call never touches any task's computation slot — whether the
send buffers the reference, blocks, or fails, every slot (the whole `tasks`
component) is exactly as before, and no poll happens. -/
theorem wake_preserves_slots (t : TaskId) (s : ExecState) :
    (stepEv (Ev.wake t) s).1.tasks = s.tasks ∧ (stepEv (Ev.wake t) s).2 = none := by
  simp only [stepEv]
  split <;> exact ⟨rfl, rfl⟩

/-- C10: `Spawner::spawn` only accepts futures with `Output = ()`, so the
completion value of any spawned task's poll is the unit value — no spawned
task can deliver a meaningful result through the executor. -/
theorem spawn_output_only_unit (b : Nat → Poll Unit) (s : ExecState) (t : TaskId)
    (f : Fut) (a : Unit) (hslot : slotOf (spawn b s) t = some f)
    (hready : f.behav f.st = Poll.ready a) : a = () := rfl

/-- Witness for `spawn_output_only_unit` on a concretely spawned task. -/
theorem spawn_output_only_unit_witness :
    slotOf (spawn (fun _ => Poll.ready ())
        { chan := { buf := [], cap := 1, senders := 1, receiverAlive := true },
          tasks := [] }) 0
      = some { behav := fun _ => Poll.ready (), st := 0 }
    ∧ (() : Unit) = () :=
  ⟨rfl,
   spawn_output_only_unit (fun _ => Poll.ready ())
     { chan := { buf := [], cap := 1, senders := 1, receiverAlive := true }, tasks := [] }
     0 { behav := fun _ => Poll.ready (), st := 0 } () rfl rfl⟩

/-- Reading `recv` on a non-empty buffer delivers the oldest reference. -/
lemma recv_cons (c : Chan) (t : TaskId) (rest : List TaskId)
    (h : c.buf = t :: rest) : recv c = RecvRes.ok t { c with buf := rest } := by
  unfold recv
  rw [h]

/-- With an empty buffer an iteration either drains or blocks. -/
lemma runStep_nil (s : ExecState) (hbuf : s.chan.buf = []) :
    runStep s = StepRes.drained ∨ runStep s = StepRes.blocked := by
  unfold runStep recv
  rw [hbuf]
  by_cases hs : s.chan.senders = 0 <;> simp [hs]

/-- Iteration shape when the dequeued task's slot is empty. -/
lemma runStep_noop (s : ExecState) (t : TaskId) (rest : List TaskId)
    (hbuf : s.chan.buf = t :: rest) (hslot : slotOf s t = none) :
    runStep s = StepRes.stepped { s with chan := { s.chan with buf := rest } } none := by
  unfold runStep recv
  rw [hbuf]
  simp only []
  rw [hslot]

/-- Iteration shape when the poll reports pending: the advanced future goes
back into the slot and nothing is re-enqueued. -/
lemma runStep_pending (s : ExecState) (t : TaskId) (rest : List TaskId) (f : Fut)
    (hbuf : s.chan.buf = t :: rest) (hslot : slotOf s t = some f)
    (hpoll : f.behav f.st = Poll.pending) :
    runStep s
      = StepRes.stepped
          { chan := { s.chan with buf := rest }, tasks := s.tasks.set t (some f.advance) }
          (some t) := by
  unfold runStep recv
  rw [hbuf]
  simp only []
  rw [hslot]
  simp only []
  rw [hpoll]

/-- Iteration shape when the poll reports completion: the future is dropped
and the slot stays empty. -/
lemma runStep_ready (s : ExecState) (t : TaskId) (rest : List TaskId) (f : Fut)
    (a : Unit) (hbuf : s.chan.buf = t :: rest) (hslot : slotOf s t = some f)
    (hpoll : f.behav f.st = Poll.ready a) :
    runStep s
      = StepRes.stepped
          { chan := { s.chan with buf := rest }, tasks := s.tasks.set t none }
          (some t) := by
  unfold runStep recv
  rw [hbuf]
  simp only []
  rw [hslot]
  simp only []
  rw [hpoll]

/-- A successful send appends exactly one reference to the buffer. -/
lemma send_ok_buf {u : TaskId} {c c2 : Chan} (h : send u c = SendRes.ok c2) :
    c2 = { c with buf := c.buf ++ [u] } := by
  unfold send at h
  split at h
  · exact SendRes.noConfusion h
  · split at h
    · exact SendRes.noConfusion h
    · injection h with h2
      exact h2.symm

/-- One event preserves "task `t` is allocated with an empty slot", and such
a task is never the one polled: the executor treats its dequeued references
as no-ops, wakes only enqueue references, and spawns allocate fresh ids. -/
lemma stepEv_pres_none (e : Ev) (s : ExecState) (t : TaskId)
    (hlt : t < s.tasks.length) (hnone : slotOf s t = none) :
    slotOf (stepEv e s).1 t = none ∧ t < (stepEv e s).1.tasks.length
      ∧ (stepEv e s).2 ≠ some t := by
  cases e with
  | exec =>
    simp only [stepEv]
    rcases hbuf : s.chan.buf with _ | ⟨u, rest⟩
    · rcases runStep_nil s hbuf with h | h <;> rw [h] <;> exact ⟨hnone, hlt, by simp⟩
    · rcases hslot : slotOf s u with _ | f
      · rw [runStep_noop s u rest hbuf hslot]
        exact ⟨hnone, hlt, by simp⟩
      · have hut : u ≠ t := by
          intro he
          rw [he, hnone] at hslot
          exact Option.noConfusion hslot
        rcases hpoll : f.behav f.st with a | _
        · rw [runStep_ready s u rest f a hbuf hslot hpoll]
          refine ⟨?_, by simpa using hlt, by simp [hut]⟩
          show ((s.tasks.set u none).get? t).getD none = none
          rw [slot_set_ne s.tasks u t none hut]
          exact hnone
        · rw [runStep_pending s u rest f hbuf hslot hpoll]
          refine ⟨?_, by simpa using hlt, by simp [hut]⟩
          show ((s.tasks.set u (some f.advance)).get? t).getD none = none
          rw [slot_set_ne s.tasks u t (some f.advance) hut]
          exact hnone
  | wake u =>
    simp only [stepEv]
    split
    · exact ⟨hnone, hlt, by simp⟩
    · exact ⟨hnone, hlt, by simp⟩
  | spawnEv b =>
    simp only [stepEv, spawn]
    split
    · refine ⟨?_, by simp; exact Nat.lt_succ_of_lt hlt, by simp⟩
      show ((s.tasks ++ [some ({ behav := b, st := 0 } : Fut)]).get? t).getD none = none
      rw [slot_append s.tasks t (some ({ behav := b, st := 0 } : Fut)) hlt]
      exact hnone
    · exact ⟨hnone, hlt, by simp⟩
  | dropSpawner =>
    simp only [stepEv]
    exact ⟨hnone, hlt, by simp⟩

/-- Over any event schedule — wake calls on `t` included — an allocated task
whose slot is empty keeps an empty slot and is never polled. -/
lemma runEvs_pres_none (evs : List Ev) (s : ExecState) (t : TaskId)
    (hlt : t < s.tasks.length) (hnone : slotOf s t = none) :
    t ∉ (runEvs evs s).2 ∧ slotOf (runEvs evs s).1 t = none := by
  induction evs generalizing s with
  | nil =>
    simp only [runEvs]
    exact ⟨by simp, hnone⟩
  | cons e rest ih =>
    obtain ⟨h1, h2, h3⟩ := stepEv_pres_none e s t hlt hnone
    obtain ⟨ih1, ih2⟩ := ih (stepEv e s).1 h2 h1
    simp only [runEvs]
    refine ⟨?_, ih2⟩
    intro hmem
    rcases List.mem_append.mp hmem with hm | hm
    · rcases hp : (stepEv e s).2 with _ | u
      · rw [hp] at hm
        simp at hm
      · rw [hp] at hm
        simp at hm
        exact h3 (by rw [hp, hm])
    · exact ih1 hm

/-- One event other than a wake on `t` preserves "task `t` is allocated and
has no reference in the queue", and never polls `t`. -/
lemma stepEv_pres_absent (e : Ev) (s : ExecState) (t : TaskId)
    (hlt : t < s.tasks.length) (habs : t ∉ s.chan.buf) (hne : e ≠ Ev.wake t) :
    t ∉ (stepEv e s).1.chan.buf ∧ t < (stepEv e s).1.tasks.length
      ∧ (stepEv e s).2 ≠ some t := by
  cases e with
  | exec =>
    simp only [stepEv]
    rcases hbuf : s.chan.buf with _ | ⟨u, rest⟩
    · rcases runStep_nil s hbuf with h | h <;> rw [h] <;> exact ⟨hbuf ▸ habs, hlt, by simp⟩
    · rw [hbuf] at habs
      have hut : u ≠ t := by
        intro he
        exact habs (he ▸ List.mem_cons_self u rest)
      have hrest : t ∉ rest := fun hm => habs (List.mem_cons_of_mem u hm)
      rcases hslot : slotOf s u with _ | f
      · rw [runStep_noop s u rest hbuf hslot]
        exact ⟨hrest, hlt, by simp⟩
      · rcases hpoll : f.behav f.st with a | _
        · rw [runStep_ready s u rest f a hbuf hslot hpoll]
          exact ⟨hrest, by simpa using hlt, by simp [hut]⟩
        · rw [runStep_pending s u rest f hbuf hslot hpoll]
          exact ⟨hrest, by simpa using hlt, by simp [hut]⟩
  | wake u =>
    have hut : u ≠ t := by
      intro he
      exact hne (by rw [he])
    simp only [stepEv]
    split
    · rename_i c2 heq
      have hc2 := send_ok_buf heq
      subst hc2
      refine ⟨?_, hlt, by simp⟩
      intro hm
      rcases List.mem_append.mp hm with hm1 | hm1
      · exact habs hm1
      · simp at hm1
        exact hut hm1.symm
    · exact ⟨habs, hlt, by simp⟩
  | spawnEv b =>
    simp only [stepEv, spawn]
    split
    · rename_i c2 heq
      have hc2 := send_ok_buf heq
      subst hc2
      refine ⟨?_, by simp; exact Nat.lt_succ_of_lt hlt, by simp⟩
      intro hm
      rcases List.mem_append.mp hm with hm1 | hm1
      · exact habs hm1
      · simp at hm1
        exact absurd hlt (by rw [hm1]; exact Nat.lt_irrefl _)
    · exact ⟨habs, hlt, by simp⟩
  | dropSpawner =>
    simp only [stepEv]
    exact ⟨habs, hlt, by simp⟩

/-- Over any schedule containing no wake call on `t`, a task with no queued
reference is never polled. -/
lemma runEvs_pres_absent (evs : List Ev) (s : ExecState) (t : TaskId)
    (hlt : t < s.tasks.length) (habs : t ∉ s.chan.buf)
    (hnw : ∀ e ∈ evs, e ≠ Ev.wake t) :
    t ∉ (runEvs evs s).2 := by
  induction evs generalizing s with
  | nil =>
    simp [runEvs]
  | cons e rest ih =>
    obtain ⟨h1, h2, h3⟩ :=
      stepEv_pres_absent e s t hlt habs (hnw e (List.mem_cons_self e rest))
    have ihr := ih (stepEv e s).1 h2 h1 (fun e2 he2 => hnw e2 (List.mem_cons_of_mem e he2))
    simp only [runEvs]
    intro hmem
    rcases List.mem_append.mp hmem with hm | hm
    · rcases hp : (stepEv e s).2 with _ | u
      · rw [hp] at hm
        simp at hm
      · rw [hp] at hm
        simp at hm
        exact h3 (by rw [hp, hm])
    · exact ihr hm

/-- Every slot operation preserves the slot invariant. -/
lemma sstep_preserves_inv {s1 s2 : SlotSt} {a : SAct}
    (h : sstep s1 a = some s2) (hinv : slotInv s1) : slotInv s2 := by
  unfold slotInv at hinv ⊢
  cases a with
  | acquire th =>
    simp only [sstep] at h
    split at h
    · injection h with h2
      rw [← h2]
      simpa using hinv
    · exact Option.noConfusion h
  | take th =>
    simp only [sstep] at h
    split at h
    · rename_i hc
      injection h with h2
      rw [← h2]
      have hinv2 : s1.holders.length + 1 ≤ 1 := by
        rw [hc.2, if_pos rfl] at hinv
        exact hinv
      show (th :: s1.holders).length + (if (false : Bool) = true then 1 else 0) ≤ 1
      simpa using hinv2
    · exact Option.noConfusion h
  | put th =>
    simp only [sstep] at h
    split at h
    · rename_i hc
      injection h with h2
      rw [← h2]
      have hmem : th ∈ s1.holders := hc.2
      have hpos : 0 < s1.holders.length := List.length_pos_of_mem hmem
      have hlen : (s1.holders.erase th).length = s1.holders.length - 1 :=
        List.length_erase_of_mem hmem
      have hfalse : s1.content = false := by
        cases hb : s1.content
        · rfl
        · exfalso
          rw [hb, if_pos rfl] at hinv
          exact absurd (Nat.le_of_succ_le_succ hinv) (Nat.not_le.mpr hpos)
      rw [hfalse, if_neg (by simp)] at hinv
      show (s1.holders.erase th).length + (if (true : Bool) = true then 1 else 0) ≤ 1
      rw [if_pos rfl, hlen, Nat.sub_add_cancel hpos]
      simpa using hinv
    · exact Option.noConfusion h
  | dropFut th =>
    simp only [sstep] at h
    split at h
    · rename_i hc
      injection h with h2
      rw [← h2]
      have hlen : (s1.holders.erase th).length = s1.holders.length - 1 :=
        List.length_erase_of_mem hc.2
      show (s1.holders.erase th).length + (if s1.content = true then 1 else 0) ≤ 1
      rw [hlen]
      exact le_trans (Nat.add_le_add_right (Nat.sub_le _ _) _) hinv
    · exact Option.noConfusion h
  | release th =>
    simp only [sstep] at h
    split at h
    · injection h with h2
      rw [← h2]
      simpa using hinv
    · exact Option.noConfusion h

/-- The slot invariant holds in every reachable slot state. -/
lemma slotReach_inv {s : SlotSt} (h : SlotReach slotInit s) : slotInv s := by
  induction h with
  | refl =>
    unfold slotInv slotInit
    decide
  | step h1 h2 ih => exact sstep_preserves_inv h2 ih

/-- C7: in every state reachable by any interleaving of slot operations by
any threads, at most one thread holds the task's computation out of its slot
— the acquire-slot / take / poll / put-or-drop protocol on the
`Mutex<Option<BoxFuture>>` never lets the same computation be held (hence
polled) concurrently. -/
theorem no_double_poll (s : SlotSt) (h : SlotReach slotInit s) :
    s.holders.length ≤ 1 := by
  have hinv := slotReach_inv h
  unfold slotInv at hinv
  exact le_trans (Nat.le_add_right _ _) hinv

/-- Witness for `no_double_poll` at the initial slot state. -/
theorem no_double_poll_witness :
    SlotReach slotInit slotInit ∧ slotInit.holders.length ≤ 1 :=
  ⟨SlotReach.refl slotInit, no_double_poll slotInit (SlotReach.refl slotInit)⟩

/-- C3: an iteration whose poll reports pending puts the computation back
into the task's slot and does not re-enqueue the task (the queue merely loses
the consumed reference); consequently, if no duplicate reference is queued
and the computation never issues a wake afterwards, the task is never polled
again under any further schedule of events. -/
theorem pending_poll_no_reenqueue (s : ExecState) (t : TaskId) (rest : List TaskId)
    (f : Fut) (evs : List Ev)
    (hbuf : s.chan.buf = t :: rest) (hslot : slotOf s t = some f)
    (hpoll : f.behav f.st = Poll.pending)
    (hsingle : t ∉ rest) (hnw : ∀ e ∈ evs, e ≠ Ev.wake t) :
    runStep s
      = StepRes.stepped
          { chan := { s.chan with buf := rest }, tasks := s.tasks.set t (some f.advance) }
          (some t)
    ∧ slotOf { chan := { s.chan with buf := rest },
               tasks := s.tasks.set t (some f.advance) } t = some f.advance
    ∧ t ∉ (runEvs evs
            { chan := { s.chan with buf := rest },
              tasks := s.tasks.set t (some f.advance) }).2 := by
  have hlt : t < s.tasks.length := slotOf_lt_length hslot
  refine ⟨runStep_pending s t rest f hbuf hslot hpoll, ?_, ?_⟩
  · show ((s.tasks.set t (some f.advance)).get? t).getD none = some f.advance
    simp only [List.get?_set_eq_of_lt _ hlt, Option.getD_some]
  · exact runEvs_pres_absent evs
      { chan := { s.chan with buf := rest }, tasks := s.tasks.set t (some f.advance) }
      t (by simpa using hlt) hsingle hnw

/-- Witness for `pending_poll_no_reenqueue`: a single pending task polled
once, with no wake afterwards. -/
theorem pending_poll_no_reenqueue_witness :
    ({ chan := { buf := [0], cap := 2, senders := 1, receiverAlive := true },
       tasks := [some { behav := fun _ => Poll.pending, st := 0 }] } : ExecState).chan.buf
        = 0 :: []
    ∧ slotOf
        { chan := { buf := [0], cap := 2, senders := 1, receiverAlive := true },
          tasks := [some { behav := fun _ => Poll.pending, st := 0 }] } 0
        = some { behav := fun _ => Poll.pending, st := 0 }
    ∧ (0 : TaskId) ∉ ([] : List TaskId)
    ∧ (runStep
          { chan := { buf := [0], cap := 2, senders := 1, receiverAlive := true },
            tasks := [some { behav := fun _ => Poll.pending, st := 0 }] }
        = StepRes.stepped
            { chan := { buf := [], cap := 2, senders := 1, receiverAlive := true },
              tasks := [some { behav := fun _ => Poll.pending, st := 0 }].set 0
                (some (Fut.advance { behav := fun _ => Poll.pending, st := 0 })) }
            (some 0)
      ∧ slotOf
          { chan := { buf := [], cap := 2, senders := 1, receiverAlive := true },
            tasks := [some { behav := fun _ => Poll.pending, st := 0 }].set 0
              (some (Fut.advance { behav := fun _ => Poll.pending, st := 0 })) } 0
          = some (Fut.advance { behav := fun _ => Poll.pending, st := 0 })
      ∧ (0 : TaskId) ∉ (runEvs [Ev.exec]
          { chan := { buf := [], cap := 2, senders := 1, receiverAlive := true },
            tasks := [some { behav := fun _ => Poll.pending, st := 0 }].set 0
              (some (Fut.advance { behav := fun _ => Poll.pending, st := 0 })) }).2) :=
  ⟨rfl, rfl, by simp,
   pending_poll_no_reenqueue
     { chan := { buf := [0], cap := 2, senders := 1, receiverAlive := true },
       tasks := [some { behav := fun _ => Poll.pending, st := 0 }] }
     0 [] { behav := fun _ => Poll.pending, st := 0 } [Ev.exec]
     rfl rfl rfl (by simp) (by simp)⟩

/-- C4: an iteration whose poll reports completion drops the computation and
leaves the task's slot empty; from then on the task is terminal — under any
further schedule, duplicate wake references for it included, it is never
polled again. -/
theorem ready_poll_terminal (s : ExecState) (t : TaskId) (rest : List TaskId)
    (f : Fut) (a : Unit) (evs : List Ev)
    (hbuf : s.chan.buf = t :: rest) (hslot : slotOf s t = some f)
    (hpoll : f.behav f.st = Poll.ready a) :
    runStep s
      = StepRes.stepped
          { chan := { s.chan with buf := rest }, tasks := s.tasks.set t none } (some t)
    ∧ slotOf { chan := { s.chan with buf := rest }, tasks := s.tasks.set t none } t = none
    ∧ t ∉ (runEvs evs
            { chan := { s.chan with buf := rest }, tasks := s.tasks.set t none }).2 := by
  have hlt : t < s.tasks.length := slotOf_lt_length hslot
  have hslot2 : slotOf { chan := { s.chan with buf := rest }, tasks := s.tasks.set t none } t = none := by
    show ((s.tasks.set t none).get? t).getD none = none
    simp only [List.get?_set_eq_of_lt _ hlt, Option.getD_some]
  refine ⟨runStep_ready s t rest f a hbuf hslot hpoll, hslot2, ?_⟩
  exact (runEvs_pres_none evs _ t (by simpa using hlt) hslot2).1

/-- Witness for `ready_poll_terminal`: a task completing on its first poll,
then woken again and dequeued again — without ever being re-polled. -/
theorem ready_poll_terminal_witness :
    ({ chan := { buf := [0], cap := 2, senders := 1, receiverAlive := true },
       tasks := [some { behav := fun _ => Poll.ready (), st := 0 }] } : ExecState).chan.buf
        = 0 :: []
    ∧ slotOf
        { chan := { buf := [0], cap := 2, senders := 1, receiverAlive := true },
          tasks := [some { behav := fun _ => Poll.ready (), st := 0 }] } 0
        = some { behav := fun _ => Poll.ready (), st := 0 }
    ∧ (runStep
          { chan := { buf := [0], cap := 2, senders := 1, receiverAlive := true },
            tasks := [some { behav := fun _ => Poll.ready (), st := 0 }] }
        = StepRes.stepped
            { chan := { buf := [], cap := 2, senders := 1, receiverAlive := true },
              tasks := [some { behav := fun _ => Poll.ready (), st := 0 }].set 0 none }
            (some 0)
      ∧ slotOf
          { chan := { buf := [], cap := 2, senders := 1, receiverAlive := true },
            tasks := [some { behav := fun _ => Poll.ready (), st := 0 }].set 0 none } 0
          = none
      ∧ (0 : TaskId) ∉ (runEvs [Ev.wake 0, Ev.exec]
          { chan := { buf := [], cap := 2, senders := 1, receiverAlive := true },
            tasks := [some { behav := fun _ => Poll.ready (), st := 0 }].set 0 none }).2) :=
  ⟨rfl, rfl,
   ready_poll_terminal
     { chan := { buf := [0], cap := 2, senders := 1, receiverAlive := true },
       tasks := [some { behav := fun _ => Poll.ready (), st := 0 }] }
     0 [] { behav := fun _ => Poll.ready (), st := 0 } () [Ev.wake 0, Ev.exec]
     rfl rfl rfl⟩

/-- A run of successful sends appends the submitted references in submission
order. -/
lemma sendAll_ok (ps : List (Nat × TaskId)) (c : Chan)
    (halive : c.receiverAlive = true) (hfit : c.buf.length + ps.length ≤ c.cap) :
    (sendAll ps c).buf = c.buf ++ ps.map Prod.snd := by
  induction ps generalizing c with
  | nil => simp [sendAll]
  | cons p rest ih =>
    have hroom : c.buf.length < c.cap := by
      simp only [List.length_cons] at hfit
      omega
    have hsend : send p.2 c = SendRes.ok { c with buf := c.buf ++ [p.2] } := by
      unfold send
      rw [if_neg (by simp [halive]), if_neg (Nat.not_le.mpr hroom)]
    have hstep : sendAll (p :: rest) c = sendAll rest { c with buf := c.buf ++ [p.2] } := by
      simp only [sendAll, List.foldl_cons]
      rw [hsend]
    have hfit2 : ({ c with buf := c.buf ++ [p.2] } : Chan).buf.length + rest.length ≤ c.cap := by
      simp only [List.length_append, List.length_cons, List.length_nil] at hfit ⊢
      omega
    rw [hstep, ih { c with buf := c.buf ++ [p.2] } halive hfit2]
    simp

/-- The consumer drains the buffer in FIFO order. -/
lemma drain_buf (l : List TaskId) (c : Chan) (h : c.buf = l) :
    drain l.length c = l := by
  induction l generalizing c with
  | nil => simp [drain]
  | cons u rest ih =>
    have hr : recv c = RecvRes.ok u { c with buf := rest } := recv_cons c u rest h
    show drain (rest.length + 1) c = u :: rest
    unfold drain
    rw [hr]
    show u :: drain rest.length { c with buf := rest } = u :: rest
    rw [ih { c with buf := rest } rfl]

/-- C8: with any interleaving of producers submitting through the shared
FIFO channel, the consumer receives exactly the submission sequence; hence
the references pushed by any single producer `p` are delivered in their
submission order (they form an order-preserving subsequence of the delivered
stream), while nothing is guaranteed across producers. -/
theorem fifo_per_producer (ps : List (Nat × TaskId)) (c : Chan) (p : Nat)
    (halive : c.receiverAlive = true) (hempty : c.buf = [])
    (hfit : ps.length ≤ c.cap) :
    drain (sendAll ps c).buf.length (sendAll ps c) = ps.map Prod.snd
    ∧ ((ps.filter (fun q => q.1 == p)).map Prod.snd).Sublist (ps.map Prod.snd) := by
  have hbuf : (sendAll ps c).buf = ps.map Prod.snd := by
    have hh := sendAll_ok ps c halive (by rw [hempty]; simpa using hfit)
    rw [hempty] at hh
    simpa using hh
  constructor
  · rw [hbuf]
    exact drain_buf (ps.map Prod.snd) (sendAll ps c) hbuf
  · exact (List.filter_sublist ps).map Prod.snd

/-- Witness for `fifo_per_producer`: two producers interleaved; producer 0's
submissions 5 then 7 are delivered in that order. -/
theorem fifo_per_producer_witness :
    ({ buf := [], cap := 10, senders := 2, receiverAlive := true } : Chan).receiverAlive = true
    ∧ ({ buf := [], cap := 10, senders := 2, receiverAlive := true } : Chan).buf = []
    ∧ (drain (sendAll [(0, 5), (1, 6), (0, 7)]
          { buf := [], cap := 10, senders := 2, receiverAlive := true }).buf.length
        (sendAll [(0, 5), (1, 6), (0, 7)]
          { buf := [], cap := 10, senders := 2, receiverAlive := true })
        = [5, 6, 7]
      ∧ (([(0, 5), (1, 6), (0, 7)].filter
            (fun q => q.1 == 0)).map Prod.snd).Sublist
          ([(0, 5), (1, 6), (0, 7)].map Prod.snd)) :=
  ⟨rfl, rfl,
   fifo_per_producer [(0, 5), (1, 6), (0, 7)]
     { buf := [], cap := 10, senders := 2, receiverAlive := true } 0 rfl rfl (by decide)⟩

end TimerFutureExec
